import Mathlib

/-
Shallow embedding of src/images_processing.py (kenixi_english_bot).

The repository's engineering core is the class pair
ImagesDownloader / ImagesFormatter in images_processing.py:

  - ImagesDownloader.fetch_image_urls(query, n): validates n (only the
    upper bound n > 200 raises, before session.get is reached), then issues
    one GET and extracts previewURL from each hit of the JSON answer.
  - ImagesDownloader.download_image(url): one GET per url; returns None on
    a non-200 status, otherwise the (possibly empty) body as a BytesIO.
    Exceptions from session.get / resp.read (timeouts, transport errors)
    are not caught and escape the coroutine.
  - ImagesDownloader.download_images(query, n): asyncio.gather over one
    download_image task per url (gather keeps the positional order of the
    task list and re-raises the exception of any failed task), then drops
    the None entries.
  - ImagesFormatter.make_collage(images): resizes every image to the
    column width, assigns each resized image to the currently shortest
    column via a heapq of (height, column_index) pairs, computes the
    column heights and the canvas size, and pastes the images.

The network is modelled as a function from a url to the outcome of its
GET; the body of a response is a byte list.  The greedy layout loop is
modelled on the list of the prepared (already resized) image heights: the
resize step itself uses PIL and Python float arithmetic and no claim
depends on it.  Only the dimensions of the canvas are modelled (the paste
phase only writes pixels).  The heap always holds exactly one pair per
column index, so popping the heap minimum is popping the lexicographic
minimum of the (height, index) pairs, which is the leftmost minimum of
the height-per-column list; leftmostMinIdx encodes that.
-/

/-- Outcome of one HTTP GET issued by the shared aiohttp session.
`raised` covers an exception escaping `session.get` or `resp.read`
(timeout, transport error, unreadable body); `response s b` is a
received HTTP response with status `s` and body bytes `b`. -/
inductive FetchOutcome where
  | raised
  | response (status : Nat) (body : List UInt8)
deriving DecidableEq

/-- The error raised by fetch_image_urls when too many images are
requested (the code raises a bare Exception; the spec's taxonomy calls
it InvalidArgument). -/
inductive ApiError where
  | invalidArgument
deriving DecidableEq

/-- ImagesDownloader.fetch_image_urls.  `n` is the requested count (a
Python int, hence `Int`), `hits` the previewURL list the API answer
would yield.  The first component records whether `session.get` was
reached (the validation `if n > 200: raise ...` sits before the
request is issued). -/
def fetch_image_urls (n : Int) (hits : List String) :
    Bool × Except ApiError (List String) :=
  if n > 200 then (false, Except.error ApiError.invalidArgument)
  else (true, Except.ok hits)

/-- ImagesDownloader.download_image: `None` (here `none`) on a non-200
status, the body otherwise; an exception escapes (modelled as
`Except.error ()`). -/
def download_image (o : FetchOutcome) : Except Unit (Option (List UInt8)) :=
  match o with
  | FetchOutcome.raised => Except.error ()
  | FetchOutcome.response s b =>
      if s ≠ 200 then Except.ok none else Except.ok (some b)

/-- `asyncio.gather(*tasks)` over one download_image task per url:
the per-task results in task order, or the exception of a failed task. -/
def gatherResults (net : String → FetchOutcome) :
    List String → Except Unit (List (Option (List UInt8)))
  | [] => Except.ok []
  | u :: rest =>
      match download_image (net u) with
      | Except.error e => Except.error e
      | Except.ok r =>
          match gatherResults net rest with
          | Except.error e => Except.error e
          | Except.ok rs => Except.ok (r :: rs)

/-- ImagesDownloader.download_images, after the url list is known:
gather the per-url downloads, then filter out the `None` entries. -/
def download_images (net : String → FetchOutcome) (urls : List String) :
    Except Unit (List (List UInt8)) :=
  match gatherResults net urls with
  | Except.error e => Except.error e
  | Except.ok results => Except.ok (results.filterMap id)

/-- The buffer download_image yields for one outcome, `none` when the
image is dropped; used to state what download_images returns. -/
def okBuffer : FetchOutcome → Option (List UInt8)
  | FetchOutcome.raised => none
  | FetchOutcome.response s b => if s = 200 then some b else none

/-- The layout configuration held by an ImagesFormatter instance. -/
structure ImagesFormatter where
  columns_count : Nat
  column_width : Nat
  gap : Nat
  background_color : Nat × Nat × Nat
deriving DecidableEq

/-- The dimensions of the PIL canvas built by make_collage (the pixel
contents are not modelled). -/
structure Canvas where
  width : Nat
  height : Nat
deriving DecidableEq

/-- Index of the leftmost minimum of a height list: the column index the
heapq pop returns, since the heap holds exactly the pairs
(heights[i], i) and pops their lexicographic minimum. -/
def leftmostMinIdx : List Nat → Nat
  | [] => 0
  | [_] => 0
  | x :: y :: t =>
      if x ≤ (y :: t).getD (leftmostMinIdx (y :: t)) 0 then 0
      else leftmostMinIdx (y :: t) + 1

/-- One iteration of the placement loop of make_collage: pop the
shortest column, append the image to it, push the column back with
height increased by `img.height + gap`.  The state is
(column_images, per-column heights). -/
def greedyStep (gap : Nat) (st : List (List Nat) × List Nat) (img : Nat) :
    List (List Nat) × List Nat :=
  let idx := leftmostMinIdx st.2
  (st.1.set idx (st.1.getD idx [] ++ [img]),
   st.2.set idx (st.2.getD idx 0 + img + gap))

/-- The whole placement loop, from c empty columns at height 0. -/
def placeAll (gap c : Nat) (imgs : List Nat) :
    List (List Nat) × List Nat :=
  imgs.foldl (greedyStep gap) (List.replicate c [], List.replicate c 0)

/-- The height component of one placement step (greedyStep projected to
the heap heights); convenient for reasoning about the loop invariant. -/
def stepH (gap : Nat) (hs : List Nat) (img : Nat) : List Nat :=
  hs.set (leftmostMinIdx hs) (hs.getD (leftmostMinIdx hs) 0 + img + gap)

/-- The `column_images` list built by make_collage for prepared image
heights `imgs`. -/
def columnImages (f : ImagesFormatter) (imgs : List Nat) : List (List Nat) :=
  (placeAll f.gap f.columns_count imgs).1

/-- The column-height formula of make_collage, verbatim:
`sum(img.height for img in col) + self.gap * max(len(col) + 1, 0)`. -/
def colHeightCode (gap : Nat) (col : List Nat) : Nat :=
  col.sum + gap * max (col.length + 1) 0

/-- The column-height formula in the words of the spec (section 4.3 step 4):
`gap + Σ(image.height + gap)` over the column members, stated here only
to be compared with `colHeightCode`, the formula of the source. -/
def column_height_spec (gap : Nat) (col : List Nat) : Nat :=
  gap + (col.map (fun h => h + gap)).sum

/-- Python `max` over a nonempty Nat list (0 for the empty list, which
make_collage never reaches when columns_count is positive). -/
def maxL : List Nat → Nat
  | [] => 0
  | [x] => x
  | x :: y :: t => max x (maxL (y :: t))

/-- Python `min` over a nonempty Nat list (0 for the empty list). -/
def minL : List Nat → Nat
  | [] => 0
  | [x] => x
  | x :: y :: t => min x (minL (y :: t))

/-- ImagesFormatter.make_collage on the prepared (resized) image
heights.  `none` models the ValueError/IndexError a zero columns_count
would raise (max over an empty height list, pop from an empty heap);
for a positive columns_count the code always builds a canvas, with the
width and height formulas taken verbatim from the source. -/
def make_collage (f : ImagesFormatter) (prepared : List Nat) : Option Canvas :=
  if f.columns_count = 0 then none
  else
    some { width := f.columns_count * f.column_width +
                      f.gap * (f.columns_count + 1),
           height := maxL ((columnImages f prepared).map (colHeightCode f.gap)) }

/-- The running balance invariant of the greedy packer: any two column
heights differ by at most M. -/
def pairInv (hs : List Nat) (M : Nat) : Prop :=
  ∀ a ∈ hs, ∀ b ∈ hs, a ≤ b + M

/-- Claim C10: download_image returns a buffer exactly when the HTTP
status is 200, and a 200 response with an empty body is returned as an
empty buffer (a success), not dropped. -/
theorem download_image_status_iff (s : Nat) (b : List UInt8) :
    (download_image (FetchOutcome.response s b) = Except.ok (some b) ↔ s = 200) ∧
    download_image (FetchOutcome.response 200 []) =
      Except.ok (some ([] : List UInt8)) := by
  refine ⟨⟨fun h => ?_, fun h => by simp [download_image, h]⟩, rfl⟩
  by_contra hs
  simp [download_image, hs] at h

/-- gather without an exception: the per-url results in url order. -/
theorem gatherResults_no_raise (net : String → FetchOutcome) :
    ∀ urls : List String, (∀ u ∈ urls, net u ≠ FetchOutcome.raised) →
    gatherResults net urls = Except.ok (urls.map (fun u => okBuffer (net u)))
  | [], _ => rfl
  | u :: rest, h => by
    have hrest := gatherResults_no_raise net rest
      (fun v hv => h v (List.mem_cons_of_mem u hv))
    have hu := h u (List.mem_cons_self u rest)
    cases hnet : net u with
    | raised => exact absurd hnet hu
    | response s b =>
      by_cases hs : s = 200 <;>
        simp [gatherResults, download_image, okBuffer, hnet, hs, hrest]

/-- Claim C3 counterexample: a batch whose every fetch fails by a raised
exception (timeout / transport error) makes download_images itself fail,
rather than return the empty sequence. -/
theorem download_images_allfail_counterexample :
    download_images (fun _ => FetchOutcome.raised) ["u"] = Except.error () ∧
    (Except.error () : Except Unit (List (List UInt8))) ≠ Except.ok [] :=
  ⟨rfl, fun h => Except.noConfusion h⟩

/-- Claim C3 (amended): when no individual fetch raises (every failure is
a non-200 status), download_images returns exactly the bodies of the
200-status references, as the order-preserving restriction of the input
order; in particular all fetches failing with a non-200 status yields
the empty list, not an error. -/
theorem download_images_order_preserving (net : String → FetchOutcome)
    (urls : List String) (h : ∀ u ∈ urls, net u ≠ FetchOutcome.raised) :
    download_images net urls =
      Except.ok (urls.filterMap (fun u => okBuffer (net u))) ∧
    ((∀ u ∈ urls, okBuffer (net u) = none) →
      download_images net urls = Except.ok []) := by
  have hg := gatherResults_no_raise net urls h
  have hmain : download_images net urls =
      Except.ok (urls.filterMap (fun u => okBuffer (net u))) := by
    simp [download_images, hg, List.filterMap_map]
  refine ⟨hmain, fun hall => ?_⟩
  rw [hmain]
  congr 1
  exact List.filterMap_eq_nil_iff.mpr hall

/-- Claim C3 witness: two references, both answered with status 404. -/
theorem download_images_order_preserving_witness :
    download_images (fun _ => FetchOutcome.response 404 []) ["a", "b"] =
      Except.ok ((["a", "b"] : List String).filterMap
        (fun u => okBuffer ((fun _ => FetchOutcome.response 404 []) u))) :=
  (download_images_order_preserving (fun _ => FetchOutcome.response 404 [])
    ["a", "b"] (by intro u hu; exact fun h => FetchOutcome.noConfusion h)).1

/-- download_images on a cons: the head download either raises (and the
whole call fails) or contributes its buffer, if any, before the rest. -/
theorem download_images_cons (net : String → FetchOutcome) (p : String)
    (l : List String) :
    download_images net (p :: l) =
      match download_image (net p) with
      | Except.error e => Except.error e
      | Except.ok r =>
          Except.map (fun bufs => r.toList ++ bufs) (download_images net l) := by
  cases hdi : download_image (net p) with
  | error e => simp [download_images, gatherResults, hdi]
  | ok r =>
    cases hgr : gatherResults net l with
    | error e => simp [download_images, gatherResults, hdi, hgr, Except.map]
    | ok rs =>
      cases r <;>
        simp [download_images, gatherResults, hdi, hgr, Except.map,
          List.filterMap_cons]

/-- Claim C4 counterexample: one raised fetch (timeout / transport error)
among the batch makes the whole download_images call fail, instead of
being observable only as that image's absence (which would give
`Except.ok [[]]`, the buffer of the other, successful reference). -/
theorem download_images_raise_counterexample :
    download_images
        (fun u => if u = "b" then FetchOutcome.raised
                  else FetchOutcome.response 200 []) ["a", "b"] =
      Except.error () ∧
    (Except.error () : Except Unit (List (List UInt8))) ≠ Except.ok [[]] :=
  ⟨rfl, fun h => Except.noConfusion h⟩

/-- Claim C4 (amended): a fetch that fails with a non-200 HTTP status is
isolated — removing that reference from the batch gives the very same
result, so the failure neither aborts the other fetches nor surfaces as
an error, and is observable only as the image's absence.  (A raised
exception — timeout, transport error, unreadable body — instead aborts
the whole call, and a 200 response with an empty body is a success.) -/
theorem download_images_non200_isolated (net : String → FetchOutcome) :
    ∀ (pre post : List String) (u : String) (s : Nat) (b : List UInt8),
    net u = FetchOutcome.response s b → s ≠ 200 →
    download_images net (pre ++ u :: post) = download_images net (pre ++ post)
  | [], post, u, s, b, hnet, hs => by
    have hdi : download_image (net u) = Except.ok none := by
      simp [download_image, hnet, hs]
    rw [List.nil_append, List.nil_append, download_images_cons, hdi]
    cases hrest : download_images net post <;> simp [Except.map]
  | p :: pre, post, u, s, b, hnet, hs => by
    rw [List.cons_append, List.cons_append, download_images_cons,
      download_images_cons,
      download_images_non200_isolated net pre post u s b hnet hs]

/-- Claim C4 witness: the middle reference answers 404; the result is the
same as if it had not been in the batch at all. -/
theorem download_images_non200_isolated_witness :
    download_images
        (fun u => if u = "x" then FetchOutcome.response 404 []
                  else FetchOutcome.response 200 []) (["a"] ++ "x" :: ["b"]) =
      download_images
        (fun u => if u = "x" then FetchOutcome.response 404 []
                  else FetchOutcome.response 200 []) (["a"] ++ ["b"]) :=
  download_images_non200_isolated _ ["a"] ["b"] "x" 404 [] rfl (by decide)

/-- Claim C7 counterexample: a count of 0 violates the spec invariant
1 ≤ count ≤ 200, yet fetch_image_urls does not reject it — the network
call is issued (first component true) and the call succeeds. -/
theorem fetch_image_urls_low_count_counterexample :
    fetch_image_urls 0 ["x"] = (true, Except.ok ["x"]) ∧
    (fetch_image_urls 0 ["x"]).1 ≠ false :=
  ⟨rfl, by decide⟩

/-- Claim C7 (amended): only the upper bound is validated: a count above
200 is rejected before the network call, while any count ≤ 200 — in
particular 0 or a negative count — is not rejected and the request is
issued with it. -/
theorem fetch_image_urls_validation (n : Int) (hits : List String) :
    (n > 200 → fetch_image_urls n hits =
      (false, Except.error ApiError.invalidArgument)) ∧
    (n ≤ 200 → fetch_image_urls n hits = (true, Except.ok hits)) := by
  constructor
  · intro h
    rw [fetch_image_urls, if_pos h]
  · intro h
    rw [fetch_image_urls, if_neg (not_lt.mpr h)]

/-- Claim C7 witness: 300 is rejected without a network call; 0 is let
through and the request goes out. -/
theorem fetch_image_urls_validation_witness :
    fetch_image_urls 300 ["x"] =
      (false, Except.error ApiError.invalidArgument) ∧
    fetch_image_urls (-5) ["x"] = (true, Except.ok ["x"]) :=
  ⟨(fetch_image_urls_validation 300 ["x"]).1 (by decide),
   (fetch_image_urls_validation (-5) ["x"]).2 (by decide)⟩

/-- Claim C8: a count above 200 makes fetch_image_urls fail with
InvalidArgument before any network call: the request is never issued
(first component false) and the error is returned. -/
theorem fetch_image_urls_over200_rejected (n : Int) (hits : List String)
    (h : n > 200) :
    fetch_image_urls n hits = (false, Except.error ApiError.invalidArgument) := by
  rw [fetch_image_urls, if_pos h]

/-- Claim C8 witness: the spec scenario count = 250. -/
theorem fetch_image_urls_over200_rejected_witness :
    fetch_image_urls 250 [] = (false, Except.error ApiError.invalidArgument) :=
  fetch_image_urls_over200_rejected 250 [] (by decide)

/-- The leftmost-minimum index is in bounds for a nonempty list. -/
theorem leftmostMinIdx_lt_length :
    ∀ hs : List Nat, hs ≠ [] → leftmostMinIdx hs < hs.length
  | [], h => absurd rfl h
  | [_], _ => by simp [leftmostMinIdx]
  | _ :: y :: t, _ => by
    have ih := leftmostMinIdx_lt_length (y :: t) (by simp)
    simp only [leftmostMinIdx]
    split
    · simp
    · simpa using Nat.succ_lt_succ ih

/-- The value at the leftmost-minimum index is a lower bound of the list. -/
theorem leftmostMinIdx_le :
    ∀ (hs : List Nat) (i : Nat), i < hs.length →
      hs.getD (leftmostMinIdx hs) 0 ≤ hs.getD i 0
  | [], _, hi => by simp at hi
  | [x], i, hi => by
    have h0 : i = 0 := Nat.lt_one_iff.mp (by simpa using hi)
    subst h0
    simp [leftmostMinIdx]
  | x :: y :: t, i, hi => by
    have ih := leftmostMinIdx_le (y :: t)
    simp only [leftmostMinIdx]
    split
    · next hle =>
      cases i with
      | zero => simp
      | succ i =>
        have : i < (y :: t).length := by simpa using hi
        calc (x :: y :: t).getD 0 0 = x := rfl
          _ ≤ (y :: t).getD (leftmostMinIdx (y :: t)) 0 := hle
          _ ≤ (y :: t).getD i 0 := ih i this
          _ = (x :: y :: t).getD (i + 1) 0 := rfl
    · next hgt =>
      cases i with
      | zero =>
        simpa using Nat.le_of_lt (Nat.lt_of_not_le hgt)
      | succ i =>
        have : i < (y :: t).length := by simpa using hi
        simpa using ih i this

/-- Entries strictly left of the leftmost-minimum index are strictly
greater than its value. -/
theorem leftmostMinIdx_leftmost :
    ∀ (hs : List Nat) (i : Nat), i < leftmostMinIdx hs →
      hs.getD (leftmostMinIdx hs) 0 < hs.getD i 0
  | [], _, hi => by simp [leftmostMinIdx] at hi
  | [_], _, hi => by simp [leftmostMinIdx] at hi
  | x :: y :: t, i, hi => by
    have ih := leftmostMinIdx_leftmost (y :: t)
    simp only [leftmostMinIdx] at hi ⊢
    split
    · next hle => rw [if_pos hle] at hi; exact absurd hi (Nat.not_lt_zero i)
    · next hgt =>
      rw [if_neg hgt] at hi
      cases i with
      | zero => simpa using Nat.lt_of_not_le hgt
      | succ i => simpa using ih i (Nat.lt_of_succ_lt_succ hi)

/-- Membership form of the lower-bound property of the leftmost minimum. -/
theorem leftmostMinIdx_le_mem (hs : List Nat) (b : Nat) (hb : b ∈ hs) :
    hs.getD (leftmostMinIdx hs) 0 ≤ b := by
  obtain ⟨i, hi, rfl⟩ := List.mem_iff_getElem.mp hb
  have h := leftmostMinIdx_le hs i hi
  rwa [List.getD_eq_getElem hs 0 hi] at h

/-- The maximum of a nonempty list is one of its members. -/
theorem maxL_mem : ∀ hs : List Nat, hs ≠ [] → maxL hs ∈ hs
  | [], h => absurd rfl h
  | [x], _ => by simp [maxL]
  | x :: y :: t, _ => by
    have ih := maxL_mem (y :: t) (by simp)
    simp only [maxL]
    rcases max_choice x (maxL (y :: t)) with h | h <;> rw [h]
    · exact List.mem_cons_self x (y :: t)
    · exact List.mem_cons_of_mem x ih

/-- The minimum of a nonempty list is one of its members. -/
theorem minL_mem : ∀ hs : List Nat, hs ≠ [] → minL hs ∈ hs
  | [], h => absurd rfl h
  | [x], _ => by simp [minL]
  | x :: y :: t, _ => by
    have ih := minL_mem (y :: t) (by simp)
    simp only [minL]
    rcases min_choice x (minL (y :: t)) with h | h <;> rw [h]
    · exact List.mem_cons_self x (y :: t)
    · exact List.mem_cons_of_mem x ih

/-- maxL over a constant nonempty list. -/
theorem maxL_replicate : ∀ (n : Nat) (a : Nat),
    maxL (List.replicate (n + 1) a) = a
  | 0, a => rfl
  | n + 1, a => by
    have ih := maxL_replicate n a
    rw [List.replicate_succ] at ih
    rw [List.replicate_succ, List.replicate_succ]
    simp only [maxL]
    rw [ih, max_self]

/-- Claim C1 counterexample: with the default layout configuration,
make_collage on the empty image list does not fail — a canvas (width
1250, height 10 = the gap) is produced. -/
theorem make_collage_empty_counterexample :
    make_collage ⟨4, 300, 10, (255, 255, 255)⟩ [] = some ⟨1250, 10⟩ ∧
    (some (⟨1250, 10⟩ : Canvas) ≠ (none : Option Canvas)) :=
  ⟨rfl, fun h => Option.noConfusion h⟩

/-- Claim C1 (amended): make_collage does not reject an empty image
sequence: for every configuration with at least one column it returns a
canvas of the standard width and of height gap (each empty column's
height evaluates to the leading gap).  Empty input is instead guarded by
the caller, which substitutes a placeholder image. -/
theorem make_collage_empty_returns_canvas (cfg : ImagesFormatter)
    (hc : 0 < cfg.columns_count) :
    make_collage cfg [] =
      some { width := cfg.columns_count * cfg.column_width +
                        cfg.gap * (cfg.columns_count + 1),
             height := cfg.gap } := by
  obtain ⟨k, hk⟩ := Nat.exists_eq_succ_of_ne_zero (Nat.pos_iff_ne_zero.mp hc)
  have h1 : columnImages cfg [] = List.replicate cfg.columns_count [] := rfl
  have h2 : colHeightCode cfg.gap [] = cfg.gap := by
    simp [colHeightCode]
  have h3 : maxL ((columnImages cfg []).map (colHeightCode cfg.gap)) =
      cfg.gap := by
    rw [h1, List.map_replicate, h2, hk, maxL_replicate]
  rw [make_collage, if_neg (Nat.pos_iff_ne_zero.mp hc), h3]

/-- Claim C1 witness: a three-column configuration with gap 7. -/
theorem make_collage_empty_returns_canvas_witness :
    make_collage ⟨3, 100, 7, (0, 0, 0)⟩ [] =
      some { width := 3 * 100 + 7 * (3 + 1), height := 7 } :=
  make_collage_empty_returns_canvas ⟨3, 100, 7, (0, 0, 0)⟩ (by decide)

/-- Claim C5: the column-height formula of the code,
`sum + gap * max(len + 1, 0)`, agrees with the spec formula
`gap + Σ(height + gap)` on every column, and the canvas height of
make_collage is the maximum of these (spec-formula) column heights. -/
theorem column_height_formulas_agree (cfg : ImagesFormatter)
    (imgs : List Nat) (hc : 0 < cfg.columns_count) :
    (∀ col : List Nat,
      colHeightCode cfg.gap col = column_height_spec cfg.gap col) ∧
    make_collage cfg imgs =
      some { width := cfg.columns_count * cfg.column_width +
                        cfg.gap * (cfg.columns_count + 1),
             height := maxL ((columnImages cfg imgs).map
                              (column_height_spec cfg.gap)) } := by
  have hform : ∀ col : List Nat,
      colHeightCode cfg.gap col = column_height_spec cfg.gap col := by
    intro col
    have hsum : (col.map (fun h => h + cfg.gap)).sum =
        col.sum + col.length * cfg.gap := by
      induction col with
      | nil => simp
      | cons x t ih => simp [ih]; ring
    rw [colHeightCode, column_height_spec, hsum,
      Nat.max_eq_left (Nat.zero_le _)]
    ring
  refine ⟨hform, ?_⟩
  rw [make_collage, if_neg (Nat.pos_iff_ne_zero.mp hc),
    funext hform]

/-- Claim C5 witness: default configuration, one image of height 100. -/
theorem column_height_formulas_agree_witness :
    make_collage ⟨4, 300, 10, (255, 255, 255)⟩ [100] =
      some { width := 4 * 300 + 10 * (4 + 1),
             height := maxL ((columnImages ⟨4, 300, 10, (255, 255, 255)⟩
                                [100]).map (column_height_spec 10)) } :=
  (column_height_formulas_agree ⟨4, 300, 10, (255, 255, 255)⟩ [100]
    (by decide)).2

/-- Claim C6: for every configuration with at least one column and every
non-empty image list, the canvas make_collage returns has width exactly
`columns_count * column_width + gap * (columns_count + 1)`. -/
theorem make_collage_width (cfg : ImagesFormatter) (imgs : List Nat)
    (hc : 0 < cfg.columns_count) (_hne : imgs ≠ []) :
    (make_collage cfg imgs).map Canvas.width =
      some (cfg.columns_count * cfg.column_width +
              cfg.gap * (cfg.columns_count + 1)) := by
  rw [make_collage, if_neg (Nat.pos_iff_ne_zero.mp hc)]
  rfl

/-- Claim C6 witness: default configuration, one image of height 100. -/
theorem make_collage_width_witness :
    (make_collage ⟨4, 300, 10, (255, 255, 255)⟩ [100]).map Canvas.width =
      some (4 * 300 + 10 * (4 + 1)) :=
  make_collage_width ⟨4, 300, 10, (255, 255, 255)⟩ [100] (by decide)
    (by decide)

/-- One placement step keeps any two column heights within
max M (img + gap) of each other, when they started within M: the popped
column is the minimum, so its new height exceeds no height by more than
img + gap, and every other pair is unchanged. -/
theorem pairInv_stepH (gap : Nat) (hs : List Nat) (img M : Nat)
    (h : pairInv hs M) :
    pairInv (stepH gap hs img) (max M (img + gap)) := by
  cases hs with
  | nil =>
    intro a ha
    simp [stepH] at ha
  | cons x t =>
    have hne : (x :: t : List Nat) ≠ [] := by simp
    have hj : leftmostMinIdx (x :: t) < (x :: t).length :=
      leftmostMinIdx_lt_length (x :: t) hne
    set v := (x :: t).getD (leftmostMinIdx (x :: t)) 0 with hv
    have hv_mem : v ∈ (x :: t) := by
      rw [hv, List.getD_eq_getElem (x :: t) 0 hj]
      exact List.getElem_mem hj
    have hv_min : ∀ b ∈ (x :: t), v ≤ b :=
      fun b hb => leftmostMinIdx_le_mem (x :: t) b hb
    intro a ha b hb
    have ha2 := List.mem_or_eq_of_mem_set ha
    have hb2 := List.mem_or_eq_of_mem_set hb
    have hvb : v ≤ b := by
      rcases hb2 with hb3 | hb3
      · exact hv_min b hb3
      · rw [hb3, Nat.add_assoc]
        exact Nat.le_add_right v (img + gap)
    rcases ha2 with ha3 | ha3
    · calc a ≤ v + M := h a ha3 v hv_mem
        _ ≤ b + max M (img + gap) :=
          Nat.add_le_add hvb (le_max_left M (img + gap))
    · rw [ha3, Nat.add_assoc]
      exact Nat.add_le_add hvb (le_max_right M (img + gap))

/-- Folding the placement step over the images accumulates the bound to
the largest img + gap placed so far. -/
theorem pairInv_heightsFold (gap : Nat) :
    ∀ (imgs : List Nat) (hs : List Nat) (M : Nat), pairInv hs M →
      pairInv (imgs.foldl (stepH gap) hs)
        (imgs.foldl (fun a h => max a (h + gap)) M)
  | [], _, _, h => h
  | img :: rest, hs, M, h => by
    simp only [List.foldl_cons]
    exact pairInv_heightsFold gap rest _ _ (pairInv_stepH gap hs img M h)

/-- The height component of the placement loop is the fold of stepH. -/
theorem placeAll_heights (gap : Nat) :
    ∀ (imgs : List Nat) (st : List (List Nat) × List Nat),
      (imgs.foldl (greedyStep gap) st).2 = imgs.foldl (stepH gap) st.2
  | [], _ => rfl
  | img :: rest, st => by
    simp only [List.foldl_cons]
    exact placeAll_heights gap rest (greedyStep gap st img)

/-- The placement loop does not change the number of columns. -/
theorem length_stepH_fold (gap : Nat) :
    ∀ (imgs hs : List Nat), (imgs.foldl (stepH gap) hs).length = hs.length
  | [], _ => rfl
  | img :: rest, hs => by
    simp only [List.foldl_cons]
    rw [length_stepH_fold gap rest, stepH, List.length_set]

/-- Claim C2 counterexample: two columns, gap 0, images of heights 90
and 5.  After the second placement the heights are 90 and 5, so the
tallest-minus-shortest difference is 85, far above the height 5 of the
image placed at that step. -/
theorem greedy_imbalance_counterexample :
    maxL ((placeAll 0 2 ([90, 5].take 2)).2) -
        minL ((placeAll 0 2 ([90, 5].take 2)).2) = 85 ∧
    ¬ (maxL ((placeAll 0 2 ([90, 5].take 2)).2) -
        minL ((placeAll 0 2 ([90, 5].take 2)).2) ≤ 5) := by
  constructor <;> decide

/-- Claim C2 (amended): at every intermediate step of the greedy
column-assignment loop, the difference between the tallest and the
shortest column height is at most the largest `height + gap` among the
images placed so far (not the height of the image placed at that step:
an early tall image keeps the difference large while later short images
land in the shortest column). -/
theorem greedy_imbalance_bounded (cfg : ImagesFormatter) (imgs : List Nat)
    (k : Nat) (hc : 0 < cfg.columns_count) :
    maxL ((placeAll cfg.gap cfg.columns_count (imgs.take k)).2) -
        minL ((placeAll cfg.gap cfg.columns_count (imgs.take k)).2) ≤
      (imgs.take k).foldl (fun a h => max a (h + cfg.gap)) 0 := by
  have hinv0 : pairInv (List.replicate cfg.columns_count 0) 0 := by
    intro a ha b hb
    rw [List.eq_of_mem_replicate ha, List.eq_of_mem_replicate hb]
  have hinv := pairInv_heightsFold cfg.gap (imgs.take k)
    (List.replicate cfg.columns_count 0) 0 hinv0
  have hsnd : (placeAll cfg.gap cfg.columns_count (imgs.take k)).2 =
      (imgs.take k).foldl (stepH cfg.gap)
        (List.replicate cfg.columns_count 0) :=
    placeAll_heights cfg.gap (imgs.take k) _
  rw [hsnd]
  have hlen : ((imgs.take k).foldl (stepH cfg.gap)
      (List.replicate cfg.columns_count 0)).length = cfg.columns_count := by
    rw [length_stepH_fold, List.length_replicate]
  have hne : (imgs.take k).foldl (stepH cfg.gap)
      (List.replicate cfg.columns_count 0) ≠ [] := by
    intro hnil
    rw [hnil] at hlen
    exact absurd hlen.symm (Nat.pos_iff_ne_zero.mp hc)
  have hmax := maxL_mem _ hne
  have hmin := minL_mem _ hne
  have hbound := hinv _ hmax _ hmin
  omega

/-- Claim C2 witness: the counterexample input satisfies the amended
bound: the difference 85 stays below 90, the largest height + gap
placed in the first two steps. -/
theorem greedy_imbalance_bounded_witness :
    maxL ((placeAll 0 2 ([90, 5].take 2)).2) -
        minL ((placeAll 0 2 ([90, 5].take 2)).2) ≤
      ([90, 5].take 2).foldl (fun a h => max a (h + 0)) 0 :=
  greedy_imbalance_bounded ⟨2, 300, 0, (255, 255, 255)⟩ [90, 5] 2 (by decide)

/-- getD at the length of the left part of an append picks the head of
the right part. -/
theorem getD_append_len {α : Type _} :
    ∀ (l : List α) (x : α) (r : List α) (d : α),
      (l ++ x :: r).getD l.length d = x
  | [], _, _, _ => rfl
  | _ :: l, x, r, d => getD_append_len l x r d

/-- set at the length of the left part of an append replaces the head of
the right part. -/
theorem set_append_len {α : Type _} :
    ∀ (l : List α) (x y : α) (r : List α),
      (l ++ x :: r).set l.length y = l ++ y :: r
  | [], _, _, _ => rfl
  | a :: l, x, y, r => by
    simp only [List.cons_append, List.length_cons, List.set_cons_succ]
    rw [set_append_len l x y r]

/-- getD left of an append boundary reads the left part. -/
theorem getD_append_lt {α : Type _} :
    ∀ (l r : List α) (i : Nat) (d : α), i < l.length →
      (l ++ r).getD i d = l.getD i d
  | [], _, _, _, hi => by simp at hi
  | a :: l, r, 0, d, _ => rfl
  | a :: l, r, i + 1, d, hi =>
    getD_append_lt l r i d (Nat.lt_of_succ_lt_succ hi)

/-- When every height left of the append boundary is positive and the
boundary holds a zero, the leftmost minimum is exactly the boundary:
this is the column the heap pop selects while untouched columns remain. -/
theorem leftmostMinIdx_append_zero (l r : List Nat)
    (hl : ∀ x ∈ l, 0 < x) :
    leftmostMinIdx (l ++ 0 :: r) = l.length := by
  have hlen : l.length < (l ++ 0 :: r).length := by simp
  have hzero : (l ++ 0 :: r).getD l.length 0 = 0 := getD_append_len l 0 r 0
  have hmin_le := leftmostMinIdx_le (l ++ 0 :: r) l.length hlen
  rw [hzero] at hmin_le
  have hveq : (l ++ 0 :: r).getD (leftmostMinIdx (l ++ 0 :: r)) 0 = 0 :=
    Nat.le_zero.mp hmin_le
  rcases Nat.lt_trichotomy (leftmostMinIdx (l ++ 0 :: r)) l.length
    with h | h | h
  · exfalso
    have hleft : (l ++ 0 :: r).getD (leftmostMinIdx (l ++ 0 :: r)) 0 =
        l.getD (leftmostMinIdx (l ++ 0 :: r)) 0 :=
      getD_append_lt l (0 :: r) _ 0 h
    have hmem : l.getD (leftmostMinIdx (l ++ 0 :: r)) 0 ∈ l := by
      rw [List.getD_eq_getElem l 0 h]
      exact List.getElem_mem h
    have hpos := hl _ hmem
    rw [hleft] at hveq
    omega
  · exact h
  · exfalso
    have := leftmostMinIdx_leftmost (l ++ 0 :: r) l.length h
    rw [hzero] at this
    exact Nat.not_lt_zero _ this

/-- As long as untouched columns (height 0) remain and every placed or
pending increment is positive, the loop fills fresh columns left to
right: each pending image lands alone in the next untouched column. -/
theorem placeAll_fresh (gap : Nat) :
    ∀ (pending : List Nat) (cols0 : List (List Nat)) (hts0 : List Nat)
      (m : Nat),
      (∀ x ∈ hts0, 0 < x) → cols0.length = hts0.length →
      (∀ p ∈ pending, 0 < p + gap) → pending.length ≤ m →
      pending.foldl (greedyStep gap)
          (cols0 ++ List.replicate m [], hts0 ++ List.replicate m 0) =
        (cols0 ++ pending.map (fun h => [h]) ++
           List.replicate (m - pending.length) [],
         hts0 ++ pending.map (fun h => h + gap) ++
           List.replicate (m - pending.length) 0)
  | [], cols0, hts0, m, _, _, _, _ => by simp
  | p :: rest, cols0, hts0, m, hpos, hlen, hpend, hcount => by
    cases m with
    | zero => simp at hcount
    | succ m =>
      have hidx : leftmostMinIdx (hts0 ++ List.replicate (m + 1) 0) =
          hts0.length := by
        rw [List.replicate_succ]
        exact leftmostMinIdx_append_zero hts0 (List.replicate m 0) hpos
      have hstep : greedyStep gap
          (cols0 ++ List.replicate (m + 1) [],
           hts0 ++ List.replicate (m + 1) 0) p =
          ((cols0 ++ [[p]]) ++ List.replicate m [],
           (hts0 ++ [p + gap]) ++ List.replicate m 0) := by
        simp only [greedyStep]
        rw [hidx]
        simp only [List.replicate_succ]
        rw [getD_append_len hts0 0 (List.replicate m 0) 0,
          set_append_len hts0 0 (0 + p + gap) (List.replicate m 0),
          ← hlen,
          getD_append_len cols0 [] (List.replicate m []) [],
          set_append_len cols0 [] ([] ++ [p]) (List.replicate m [])]
        simp [List.append_assoc]
      have hrest := placeAll_fresh gap rest (cols0 ++ [[p]])
        (hts0 ++ [p + gap]) m
        (by
          intro x hx
          rcases List.mem_append.mp hx with hx | hx
          · exact hpos x hx
          · rw [List.mem_singleton.mp hx]
            exact hpend p (List.mem_cons_self p rest))
        (by simp [hlen])
        (fun q hq => hpend q (List.mem_cons_of_mem p hq))
        (by
          simp only [List.length_cons] at hcount
          omega)
      simp only [List.foldl_cons]
      rw [hstep, hrest]
      simp [List.append_assoc, Nat.succ_sub_succ]

/-- Claim C9 counterexample: two columns, gap 0, and a first image of
resized height 0 (a wide, short source image resized to the column
width can round to height 0, and a gap of 0 is a legal LayoutConfig).
The first placement leaves column 0 at height 0, still tied with
column 1, and the ascending-index tie-break picks column 0 again: both
images land in column 0 and column 1 stays empty, so the images are not
assigned to distinct columns in input order. -/
theorem greedy_distinct_columns_counterexample :
    columnImages ⟨2, 300, 0, (255, 255, 255)⟩ [0, 7] = [[0, 7], []] ∧
    ([[0, 7], []] : List (List Nat)) ≠ [[0], [7]] := by
  refine ⟨by decide, by decide⟩

/-- Claim C9 (amended): for a list of exactly columns_count images each
of which strictly increases its column height (height + gap positive —
in particular whenever the gap is positive or no resized height is
zero), the greedy placement assigns the i-th image in input order to
column index i, each column receiving exactly that one image; ties at
height zero break by ascending column index. -/
theorem greedy_first_c_distinct (cfg : ImagesFormatter) (imgs : List Nat)
    (hlen : imgs.length = cfg.columns_count)
    (hpos : ∀ h ∈ imgs, 0 < h + cfg.gap) :
    columnImages cfg imgs = imgs.map (fun h => [h]) := by
  have hfresh := placeAll_fresh cfg.gap imgs [] [] cfg.columns_count
    (by intro x hx; cases hx) rfl hpos (le_of_eq hlen)
  have hplace : placeAll cfg.gap cfg.columns_count imgs =
      ([] ++ imgs.map (fun h => [h]) ++
         List.replicate (cfg.columns_count - imgs.length) [],
       [] ++ imgs.map (fun h => h + cfg.gap) ++
         List.replicate (cfg.columns_count - imgs.length) 0) := by
    rw [placeAll]
    simpa using hfresh
  rw [columnImages, hplace]
  simp [hlen]

/-- Claim C9 witness: two images of heights 5 and 3, gap 10: they go to
columns 0 and 1 respectively. -/
theorem greedy_first_c_distinct_witness :
    columnImages ⟨2, 300, 10, (255, 255, 255)⟩ [5, 3] =
      ([5, 3] : List Nat).map (fun h => [h]) :=
  greedy_first_c_distinct ⟨2, 300, 10, (255, 255, 255)⟩ [5, 3] (by decide)
    (by decide)
